import Mathlib

/-!
Shallow embedding of the `cmd` package (a line-oriented interactive command
interpreter) and proofs about its dispatch contract.

The embedding follows `cmd.go` directly:
  * `goIsSpace`, `fields`, `trimSpace` model `unicode.IsSpace`,
    `strings.Fields` and `strings.TrimSpace`;
  * `Cmd` models the `Cmd` struct; the pluggable `Default`, `EmptyLine` and
    `Tokens` fields are either the closure installed by `New` (`.std`) or a
    caller-supplied pure function (`.custom`);
  * `Cmd.one` models the method `one` (resp. exported `One`), instrumented
    with an event trace recording handler/default/empty-line invocations and
    writes to the output stream, and with a fuel parameter because the default
    `EmptyLine` closure re-enters `one`;
  * `Cmd.loop` models `Loop`, with the input stream given as the list of
    lines `bufio.Reader.ReadBytes` would deliver, followed by EOF.
Go's possibly-nil `error` values are modelled as `Option Err` (`none` = nil).
-/

set_option maxHeartbeats 1000000

/-- Go `error` values, identified by their message (`fmt.Errorf`, `io.EOF`,
writer failures). `Option Err` stands for a possibly-nil Go `error`. -/
abbrev Err := String

/-- `type CmdFn func(args []string) (out string, err error)`. -/
abbrev CmdFn := List String → String × Option Err

/-- Go's `unicode.IsSpace`: the Unicode White_Space property, the separator
predicate used by both `strings.TrimSpace` and `strings.Fields`. -/
def goIsSpace (c : Char) : Bool :=
  c == ' ' || c == '\t' || c == '\n' || c == '\x0b' || c == '\x0c' || c == '\r' ||
  c == '\u0085' || c == '\u00A0' || c == '\u1680' ||
  ('\u2000' ≤ c && c ≤ '\u200A') ||
  c == '\u2028' || c == '\u2029' || c == '\u202F' || c == '\u205F' || c == '\u3000'

/-- Accumulator worker for `fields`: scans the characters, accumulating the
current word in reverse, and emits a word at each space run or at the end. -/
def fieldsAux : List Char → List Char → List String
  | [], acc => if acc.isEmpty then [] else [⟨acc.reverse⟩]
  | ch :: cs, acc =>
    if goIsSpace ch then
      if acc.isEmpty then fieldsAux cs []
      else ⟨acc.reverse⟩ :: fieldsAux cs []
    else fieldsAux cs (ch :: acc)

/-- `strings.Fields`: split a string around runs of whitespace; the resulting
words contain no whitespace and are never empty. -/
def fields (s : String) : List String := fieldsAux s.data []

/-- `strings.TrimSpace`: drop leading and trailing whitespace. -/
def trimSpace (s : String) : String :=
  ⟨((s.data.dropWhile goIsSpace).reverse.dropWhile goIsSpace).reverse⟩

/-- The `Tokens` field of `Cmd`: `.std` is the `strings.Fields` default
installed by `New`; `.custom f` is a caller-installed tokenizer. -/
inductive TokensBehavior where
  | std
  | custom (f : String → List String)

/-- The `Default` field of `Cmd`: `.std` is the closure installed by `New`
(`fmt.Sprintf("unrecognized command: %s\n", strings.Fields(line)[0])`, an
unguarded index); `.custom f` is a caller-installed handler. -/
inductive DefaultBehavior where
  | std
  | custom (f : String → String × Option Err)

/-- The `EmptyLine` field of `Cmd`: `.std` is the closure installed by `New`
(re-run `one` on `LastLine` when it is non-empty); `.custom r` is a
caller-installed handler returning the fixed result `r`. -/
inductive EmptyLineBehavior where
  | std
  | custom (r : String × Option Err)

/-- The `Cmd` struct. `In` is not a field here: the input stream is passed to
`Cmd.loop` as the list of delivered lines. `Out` is split into the event
trace produced by a run (the bytes actually sent) and the field `OutFail`,
giving the error, if any, that the writer returns for a given write. -/
structure Cmd where
  Commands : String → Option CmdFn
  Prompt : String
  Default : DefaultBehavior
  EmptyLine : EmptyLineBehavior
  Tokens : TokensBehavior
  LastLine : String
  OutFail : String → Option Err

/-- `DefaultPrompt`, the default value of `Cmd.Prompt`. -/
def DefaultPrompt : String := "> "

/-- `New`: build a `Cmd` with the standard `EmptyLine`, `Default` and
`Tokens` behaviors, empty `LastLine` and the default prompt. The writer's
failure behavior `w` stands for the `out io.Writer` argument. -/
def New (c : String → Option CmdFn) (w : String → Option Err) : Cmd :=
  { Commands := c, Prompt := DefaultPrompt, Default := .std,
    EmptyLine := .std, Tokens := .std, LastLine := "", OutFail := w }

/-- Observable events of a run: a handler call, a `Default` call, an
`EmptyLine` call, and a `Write` to the output stream. -/
inductive Event where
  | callHandler (name : String) (args : List String)
  | callDefault (line : String)
  | callEmptyLine
  | write (msg : String)
deriving DecidableEq

/-- How a run of `one`/`Loop` ends: a returned Go error value (`.ok none` is a
nil return), a runtime panic, or fuel exhaustion (the Go code recursing
forever through the default `EmptyLine` closure). -/
inductive Outcome where
  | ok (err : Option Err)
  | panic
  | diverge
deriving DecidableEq

/-- Result of running `one` or `Loop`: the outcome, the final state of the
`Cmd` struct, and the trace of observable events in order. -/
structure RunOut where
  outcome : Outcome
  state : Cmd
  trace : List Event

/-- The tokenization step of `parseLine`: `c.Tokens(line)`. -/
def tokensOf (c : Cmd) (line : String) : List String :=
  match c.Tokens with
  | .std => fields line
  | .custom f => f line

/-- `parseLine`: trim the line; an empty trimmed line or an empty token list
yields the empty command name; otherwise the first token is the command and
the remaining tokens the arguments. -/
def Cmd.parseLine (c : Cmd) (line : String) : String × List String :=
  let t := trimSpace line
  if t.length = 0 then ("", [])
  else
    match tokensOf c t with
    | [] => ("", [])
    | tok :: rest => (tok, rest)

/-- The tail of `one`: if `msg` is non-empty, write it (returning the write
error if the writer fails), then return `cmderr`. -/
def emit (c : Cmd) (pre : List Event) (msg : String) (cmderr : Option Err) : RunOut :=
  if msg = "" then ⟨.ok cmderr, c, pre⟩
  else
    match c.OutFail msg with
    | some werr => ⟨.ok (some werr), c, pre ++ [.write msg]⟩
    | none => ⟨.ok cmderr, c, pre ++ [.write msg]⟩

/-- The method `one`: parse one line; on an empty command name invoke
`EmptyLine` (the standard closure re-enters `one` on `LastLine`, hence the
fuel); otherwise set `LastLine` to the raw line, then dispatch to the mapped
handler or to `Default`, and finally write the non-empty output. The
standard `Default` indexes `strings.Fields(line)[0]` unguarded, modelled by
the `.panic` outcome when the fields are empty. -/
def Cmd.one : Nat → Cmd → String → RunOut
  | 0, c, _ => ⟨.diverge, c, []⟩
  | fuel + 1, c, line =>
    let p := c.parseLine line
    if p.1 = "" then
      match c.EmptyLine with
      | .custom r => emit c [.callEmptyLine] r.1 r.2
      | .std =>
        if c.LastLine = "" then emit c [.callEmptyLine] "" none
        else
          let r := Cmd.one fuel c c.LastLine
          match r.outcome with
          | .ok err => emit r.state (.callEmptyLine :: r.trace) "" err
          | o => ⟨o, r.state, .callEmptyLine :: r.trace⟩
    else
      let c' := { c with LastLine := line }
      match c'.Commands p.1 with
      | some fn => emit c' [.callHandler p.1 p.2] (fn p.2).1 (fn p.2).2
      | none =>
        match c'.Default with
        | .custom f => emit c' [.callDefault line] (f line).1 (f line).2
        | .std =>
          match fields line with
          | [] => ⟨.panic, c', [.callDefault line]⟩
          | tok :: _ =>
            emit c' [.callDefault line] ("unrecognized command: " ++ tok ++ "\n") none

/-- `Loop`: write the prompt (propagating a write failure), read one line
(returning `io.EOF` once the input list is exhausted), run `one` on it, and
stop on the first non-nil error. -/
def Cmd.loop : Nat → Cmd → List String → RunOut
  | 0, c, _ => ⟨.diverge, c, []⟩
  | fuel + 1, c, input =>
    match c.OutFail c.Prompt with
    | some werr => ⟨.ok (some werr), c, [.write c.Prompt]⟩
    | none =>
      match input with
      | [] => ⟨.ok (some "EOF"), c, [.write c.Prompt]⟩
      | line :: rest =>
        let r := Cmd.one fuel c line
        match r.outcome with
        | .ok none =>
          let r2 := Cmd.loop fuel r.state rest
          ⟨r2.outcome, r2.state, .write c.Prompt :: (r.trace ++ r2.trace)⟩
        | .ok (some e) => ⟨.ok (some e), r.state, .write c.Prompt :: r.trace⟩
        | o => ⟨o, r.state, .write c.Prompt :: r.trace⟩

/-- The strings sent to the output stream during a run, in order. -/
def writes (tr : List Event) : List String :=
  tr.filterMap fun e => match e with | .write m => some m | _ => none

/-! ### Lemmas about `fields` and `trimSpace` -/

theorem fieldsAux_allspace (t : List Char) (acc : List Char)
    (h : ∀ ch ∈ t, goIsSpace ch = true) : fieldsAux t acc = fieldsAux [] acc := by
  induction t generalizing acc with
  | nil => rfl
  | cons ch cs ih =>
    have hch : goIsSpace ch = true := h ch (by simp)
    have hcs : ∀ x ∈ cs, goIsSpace x = true := fun x hx => h x (by simp [hx])
    cases acc with
    | nil => simp [fieldsAux, hch, ih [] hcs]
    | cons a as => simp [fieldsAux, hch, ih [] hcs]

theorem fieldsAux_append_allspace (l t : List Char) (acc : List Char)
    (h : ∀ ch ∈ t, goIsSpace ch = true) : fieldsAux (l ++ t) acc = fieldsAux l acc := by
  induction l generalizing acc with
  | nil => exact fieldsAux_allspace t acc h
  | cons ch cs ih =>
    by_cases hch : goIsSpace ch
    · cases acc <;> simp [fieldsAux, hch, ih]
    · simp [fieldsAux, hch, ih]

theorem fieldsAux_dropWhile (l : List Char) :
    fieldsAux (l.dropWhile goIsSpace) [] = fieldsAux l [] := by
  induction l with
  | nil => rfl
  | cons ch cs ih =>
    by_cases hch : goIsSpace ch
    · rw [List.dropWhile_cons, if_pos hch, ih]
      simp [fieldsAux, hch]
    · rw [List.dropWhile_cons, if_neg (by simpa using hch)]

theorem fields_trimSpace (s : String) : fields (trimSpace s) = fields s := by
  show fieldsAux (((s.data.dropWhile goIsSpace).reverse.dropWhile goIsSpace).reverse) [] =
    fieldsAux s.data []
  have hall : ∀ ch ∈ (List.takeWhile goIsSpace
      (s.data.dropWhile goIsSpace).reverse).reverse, goIsSpace ch = true := by
    intro ch hch
    rw [List.mem_reverse] at hch
    exact List.mem_takeWhile_imp hch
  have hsplit : ((s.data.dropWhile goIsSpace).reverse.dropWhile goIsSpace).reverse ++
      (List.takeWhile goIsSpace (s.data.dropWhile goIsSpace).reverse).reverse =
      s.data.dropWhile goIsSpace := by
    rw [← List.reverse_append, List.takeWhile_append_dropWhile, List.reverse_reverse]
  calc fieldsAux (((s.data.dropWhile goIsSpace).reverse.dropWhile goIsSpace).reverse) []
      = fieldsAux (((s.data.dropWhile goIsSpace).reverse.dropWhile goIsSpace).reverse ++
          (List.takeWhile goIsSpace (s.data.dropWhile goIsSpace).reverse).reverse) [] :=
        (fieldsAux_append_allspace _ _ _ hall).symm
    _ = fieldsAux (s.data.dropWhile goIsSpace) [] := by rw [hsplit]
    _ = fieldsAux s.data [] := fieldsAux_dropWhile _

theorem fields_of_trim_empty (s : String) (h : trimSpace s = "") : fields s = [] := by
  rw [← fields_trimSpace, h]
  rfl

theorem fieldsAux_ne_nil (l : List Char) : ∀ acc, acc ≠ [] → fieldsAux l acc ≠ [] := by
  induction l with
  | nil =>
    intro acc h
    simp [fieldsAux, List.isEmpty_iff, h]
  | cons ch cs ih =>
    intro acc h
    by_cases hch : goIsSpace ch
    · simp [fieldsAux, hch, List.isEmpty_iff, h]
    · simp only [fieldsAux, hch, Bool.false_eq_true, if_false]
      exact ih (ch :: acc) (by simp)

theorem fieldsAux_ne_nil_of_mem (l : List Char) :
    ∀ acc, (∃ ch ∈ l, goIsSpace ch = false) → fieldsAux l acc ≠ [] := by
  induction l with
  | nil =>
    rintro acc ⟨ch, hch, -⟩
    cases hch
  | cons ch cs ih =>
    rintro acc ⟨x, hx, hxf⟩
    by_cases hch : goIsSpace ch
    · have hxcs : x ∈ cs := by
        rcases List.mem_cons.mp hx with rfl | hmem
        · rw [hch] at hxf; cases hxf
        · exact hmem
      cases acc with
      | nil => simpa [fieldsAux, hch] using ih [] ⟨x, hxcs, hxf⟩
      | cons a as => simp [fieldsAux, hch]
    · simp only [fieldsAux, hch, Bool.false_eq_true, if_false]
      exact fieldsAux_ne_nil cs (ch :: acc) (by simp)

theorem dropWhile_head_false (p : Char → Bool) (l : List Char) (a : Char) (t : List Char)
    (h : l.dropWhile p = a :: t) : p a = false := by
  induction l with
  | nil => cases h
  | cons ch cs ih =>
    by_cases hch : p ch
    · rw [List.dropWhile_cons, if_pos hch] at h
      exact ih h
    · rw [List.dropWhile_cons, if_neg (by simpa using hch)] at h
      cases h
      simpa using hch

theorem fields_ne_nil_of_trim_ne (s : String) (h : trimSpace s ≠ "") : fields s ≠ [] := by
  rw [← fields_trimSpace]
  have hdata : ((s.data.dropWhile goIsSpace).reverse.dropWhile goIsSpace) ≠ [] := by
    intro hd
    apply h
    apply String.ext
    show ((s.data.dropWhile goIsSpace).reverse.dropWhile goIsSpace).reverse = "".data
    rw [hd]
    rfl
  obtain ⟨a, t, hat⟩ : ∃ a t, (s.data.dropWhile goIsSpace).reverse.dropWhile goIsSpace = a :: t := by
    cases hdd : (s.data.dropWhile goIsSpace).reverse.dropWhile goIsSpace with
    | nil => exact absurd hdd hdata
    | cons a t => exact ⟨a, t, rfl⟩
  have hafalse : goIsSpace a = false := dropWhile_head_false _ _ _ _ hat
  show fieldsAux (trimSpace s).data [] ≠ []
  apply fieldsAux_ne_nil_of_mem
  refine ⟨a, ?_, hafalse⟩
  show a ∈ ((s.data.dropWhile goIsSpace).reverse.dropWhile goIsSpace).reverse
  rw [List.mem_reverse, hat]
  simp

theorem fieldsAux_mem_ne_empty (l : List Char) :
    ∀ acc x, x ∈ fieldsAux l acc → x ≠ "" := by
  induction l with
  | nil =>
    intro acc x hx
    by_cases h : acc = []
    · simp [fieldsAux, h] at hx
    · rw [show fieldsAux [] acc = [⟨acc.reverse⟩] by
        simp [fieldsAux, List.isEmpty_iff, h]] at hx
      rcases List.mem_singleton.mp hx with rfl
      intro he
      have : acc.reverse = ([] : List Char) := congrArg String.data he
      exact h (by simpa using this)
  | cons ch cs ih =>
    intro acc x hx
    by_cases hch : goIsSpace ch
    · by_cases h : acc = []
      · rw [show fieldsAux (ch :: cs) acc = fieldsAux cs [] by simp [fieldsAux, hch, h]] at hx
        exact ih [] x hx
      · rw [show fieldsAux (ch :: cs) acc = ⟨acc.reverse⟩ :: fieldsAux cs [] by
          simp [fieldsAux, hch, List.isEmpty_iff, h]] at hx
        rcases List.mem_cons.mp hx with rfl | hmem
        · intro he
          have : acc.reverse = ([] : List Char) := congrArg String.data he
          exact h (by simpa using this)
        · exact ih [] x hmem
    · rw [show fieldsAux (ch :: cs) acc = fieldsAux cs (ch :: acc) by
        simp [fieldsAux, hch]] at hx
      exact ih (ch :: acc) x hx

theorem fields_head_ne_empty (s n : String) (args : List String)
    (h : fields s = n :: args) : n ≠ "" := by
  apply fieldsAux_mem_ne_empty s.data [] n
  show n ∈ fields s
  rw [h]
  simp

/-! ### Lemmas about `parseLine`, `emit` and `one` -/

theorem string_length_zero_iff (s : String) : s.length = 0 ↔ s = "" := by
  constructor
  · intro h
    apply String.ext
    have : s.data.length = 0 := h
    simpa using List.length_eq_zero.mp this
  · rintro rfl
    rfl

theorem parseLine_std (c : Cmd) (line n : String) (args : List String)
    (htok : c.Tokens = .std) (hf : fields line = n :: args) :
    c.parseLine line = (n, args) := by
  have htrim : trimSpace line ≠ "" := by
    intro h
    rw [fields_of_trim_empty line h] at hf
    cases hf
  have hlen : ¬(trimSpace line).length = 0 :=
    fun h => htrim ((string_length_zero_iff _).mp h)
  have htoks : tokensOf c (trimSpace line) = n :: args := by
    unfold tokensOf
    rw [htok, fields_trimSpace, hf]
  unfold Cmd.parseLine
  simp only [hlen, if_false, htoks]

theorem parseLine_of_trim_empty (c : Cmd) (line : String) (h : trimSpace line = "") :
    c.parseLine line = ("", []) := by
  unfold Cmd.parseLine
  simp only [h]
  rfl

theorem trim_ne_of_parseLine_ne (c : Cmd) (line : String)
    (h : (c.parseLine line).1 ≠ "") : trimSpace line ≠ "" := by
  intro he
  rw [parseLine_of_trim_empty c line he] at h
  exact h rfl

theorem emit_empty (c : Cmd) (pre : List Event) (cmderr : Option Err) :
    emit c pre "" cmderr = ⟨.ok cmderr, c, pre⟩ := by
  unfold emit
  rw [if_pos rfl]

theorem emit_write_ok (c : Cmd) (pre : List Event) (msg : String) (cmderr : Option Err)
    (hm : msg ≠ "") (hw : c.OutFail msg = none) :
    emit c pre msg cmderr = ⟨.ok cmderr, c, pre ++ [.write msg]⟩ := by
  unfold emit
  rw [if_neg hm, hw]

theorem emit_write_fail (c : Cmd) (pre : List Event) (msg : String) (cmderr : Option Err)
    (we : Err) (hm : msg ≠ "") (hw : c.OutFail msg = some we) :
    emit c pre msg cmderr = ⟨.ok (some we), c, pre ++ [.write msg]⟩ := by
  unfold emit
  rw [if_neg hm, hw]

theorem emit_state (c : Cmd) (pre : List Event) (msg : String) (cmderr : Option Err) :
    (emit c pre msg cmderr).state = c := by
  unfold emit
  by_cases h : msg = ""
  · rw [if_pos h]
  · rw [if_neg h]
    cases c.OutFail msg <;> rfl

theorem one_handler (fuel : Nat) (c : Cmd) (line n : String) (args : List String) (fn : CmdFn)
    (hp : c.parseLine line = (n, args)) (hn : n ≠ "") (hc : c.Commands n = some fn) :
    Cmd.one (fuel + 1) c line =
      emit { c with LastLine := line } [.callHandler n args] (fn args).1 (fn args).2 := by
  simp only [Cmd.one, hp]
  rw [if_neg hn]
  simp only [hc]

theorem one_default_std (fuel : Nat) (c : Cmd) (line n : String) (args : List String)
    (tok : String) (rest : List String)
    (hp : c.parseLine line = (n, args)) (hn : n ≠ "") (hc : c.Commands n = none)
    (hd : c.Default = .std) (hfl : fields line = tok :: rest) :
    Cmd.one (fuel + 1) c line =
      emit { c with LastLine := line } [.callDefault line]
        ("unrecognized command: " ++ tok ++ "\n") none := by
  simp only [Cmd.one, hp]
  rw [if_neg hn]
  simp only [hc, hd, hfl]

theorem one_default_custom (fuel : Nat) (c : Cmd) (line n : String) (args : List String)
    (f : String → String × Option Err)
    (hp : c.parseLine line = (n, args)) (hn : n ≠ "") (hc : c.Commands n = none)
    (hd : c.Default = .custom f) :
    Cmd.one (fuel + 1) c line =
      emit { c with LastLine := line } [.callDefault line] (f line).1 (f line).2 := by
  simp only [Cmd.one, hp]
  rw [if_neg hn]
  simp only [hc, hd]

theorem one_empty_custom (fuel : Nat) (c : Cmd) (line : String) (r : String × Option Err)
    (hp : (c.parseLine line).1 = "") (he : c.EmptyLine = .custom r) :
    Cmd.one (fuel + 1) c line = emit c [.callEmptyLine] r.1 r.2 := by
  simp only [Cmd.one]
  rw [if_pos hp]
  simp only [he]

theorem one_empty_std_nolast (fuel : Nat) (c : Cmd) (line : String)
    (hp : (c.parseLine line).1 = "") (he : c.EmptyLine = .std) (hl : c.LastLine = "") :
    Cmd.one (fuel + 1) c line = ⟨.ok none, c, [.callEmptyLine]⟩ := by
  simp only [Cmd.one]
  rw [if_pos hp]
  simp only [he]
  rw [if_pos hl, emit_empty]

theorem one_empty_std_last (fuel : Nat) (c : Cmd) (line : String)
    (hp : (c.parseLine line).1 = "") (he : c.EmptyLine = .std) (hl : c.LastLine ≠ "") :
    Cmd.one (fuel + 1) c line =
      ⟨(Cmd.one fuel c c.LastLine).outcome, (Cmd.one fuel c c.LastLine).state,
        .callEmptyLine :: (Cmd.one fuel c c.LastLine).trace⟩ := by
  simp only [Cmd.one]
  rw [if_pos hp]
  simp only [he]
  rw [if_neg hl]
  cases ho : (Cmd.one fuel c c.LastLine).outcome with
  | ok err => simp only [emit_empty]
  | panic => rfl
  | diverge => rfl

theorem emit_outcome_ne_panic (c : Cmd) (pre : List Event) (msg : String) (cmderr : Option Err) :
    (emit c pre msg cmderr).outcome ≠ .panic := by
  unfold emit
  by_cases hm : msg = ""
  · rw [if_pos hm]
    exact fun h => Outcome.noConfusion h
  · rw [if_neg hm]
    cases c.OutFail msg <;> exact fun h => Outcome.noConfusion h

theorem emit_trace_cons (c : Cmd) (a : Event) (pre : List Event) (msg : String)
    (cmderr : Option Err) : (emit c (a :: pre) msg cmderr).trace.head? = some a := by
  unfold emit
  by_cases hm : msg = ""
  · rw [if_pos hm]
    rfl
  · rw [if_neg hm]
    cases c.OutFail msg <;> rfl

theorem one_state_cmd_ne (fuel : Nat) (c : Cmd) (line : String)
    (hp : (c.parseLine line).1 ≠ "") :
    (Cmd.one (fuel + 1) c line).state = { c with LastLine := line } := by
  obtain ⟨n, args, hpe⟩ : ∃ n args, c.parseLine line = (n, args) := ⟨_, _, rfl⟩
  have hn : n ≠ "" := by rw [hpe] at hp; exact hp
  have htrim : trimSpace line ≠ "" := trim_ne_of_parseLine_ne c line hp
  have hflne : fields line ≠ [] := fields_ne_nil_of_trim_ne line htrim
  cases hc : c.Commands n with
  | some fn => rw [one_handler fuel c line n args fn hpe hn hc, emit_state]
  | none =>
    cases hd : c.Default with
    | custom f =>
      rw [one_default_custom fuel c line n args f hpe hn hc hd, emit_state, hd]
    | std =>
      cases hfl : fields line with
      | nil => exact absurd hfl hflne
      | cons tok rest =>
        rw [one_default_std fuel c line n args tok rest hpe hn hc hd hfl, emit_state, hd]

theorem one_state_empty (fuel : Nat) : ∀ (c : Cmd) (line : String),
    (c.parseLine line).1 = "" → (Cmd.one fuel c line).state.LastLine = c.LastLine := by
  induction fuel with
  | zero => intro c line _; rfl
  | succ fuel ih =>
    intro c line hp
    cases he : c.EmptyLine with
    | custom r => rw [one_empty_custom fuel c line r hp he, emit_state]
    | std =>
      by_cases hl : c.LastLine = ""
      · rw [one_empty_std_nolast fuel c line hp he hl]
      · rw [one_empty_std_last fuel c line hp he hl]
        by_cases hp2 : (c.parseLine c.LastLine).1 = ""
        · exact ih c c.LastLine hp2
        · cases fuel with
          | zero => rfl
          | succ g =>
            show (Cmd.one (g + 1) c c.LastLine).state.LastLine = c.LastLine
            rw [one_state_cmd_ne g c c.LastLine hp2]

theorem one_state_shape (fuel : Nat) : ∀ (c : Cmd) (line : String),
    ∃ ll, (Cmd.one fuel c line).state = { c with LastLine := ll } := by
  induction fuel with
  | zero => intro c line; exact ⟨c.LastLine, rfl⟩
  | succ fuel ih =>
    intro c line
    by_cases hp : (c.parseLine line).1 = ""
    · cases he : c.EmptyLine with
      | custom r =>
        refine ⟨c.LastLine, ?_⟩
        rw [one_empty_custom fuel c line r hp he, emit_state, ← he]
      | std =>
        by_cases hl : c.LastLine = ""
        · refine ⟨c.LastLine, ?_⟩
          rw [one_empty_std_nolast fuel c line hp he hl]
          show c = _
          rw [← he]
        · obtain ⟨ll, hll⟩ := ih c c.LastLine
          refine ⟨ll, ?_⟩
          rw [one_empty_std_last fuel c line hp he hl]
          show (Cmd.one fuel c c.LastLine).state = _
          rw [← he]
          exact hll
    · exact ⟨line, one_state_cmd_ne fuel c line hp⟩

theorem one_fuel_indep (f1 f2 : Nat) (c : Cmd) (line : String)
    (hp : (c.parseLine line).1 ≠ "") :
    Cmd.one (f1 + 1) c line = Cmd.one (f2 + 1) c line := by
  obtain ⟨n, args, hpe⟩ : ∃ n args, c.parseLine line = (n, args) := ⟨_, _, rfl⟩
  have hn : n ≠ "" := by rw [hpe] at hp; exact hp
  have htrim : trimSpace line ≠ "" := trim_ne_of_parseLine_ne c line hp
  have hflne : fields line ≠ [] := fields_ne_nil_of_trim_ne line htrim
  cases hc : c.Commands n with
  | some fn =>
    rw [one_handler f1 c line n args fn hpe hn hc, one_handler f2 c line n args fn hpe hn hc]
  | none =>
    cases hd : c.Default with
    | custom f =>
      rw [one_default_custom f1 c line n args f hpe hn hc hd,
        one_default_custom f2 c line n args f hpe hn hc hd]
    | std =>
      cases hfl : fields line with
      | nil => exact absurd hfl hflne
      | cons tok rest =>
        rw [one_default_std f1 c line n args tok rest hpe hn hc hd hfl,
          one_default_std f2 c line n args tok rest hpe hn hc hd hfl]

/-! ### Concrete fixtures (the command table of `cmd_test.go`) -/

/-- The `good` handler of `cmd_test.go`: pure, echoes its arguments. -/
def goodFn : CmdFn := fun args => ("good " ++ String.intercalate " " args ++ "\n", none)

/-- The `bad` handler of `cmd_test.go`: non-empty output and a non-nil error. -/
def badFn : CmdFn := fun _ => ("bad\n", some "oops")

/-- The command table of `cmd_test.go`. -/
def testCommands : String → Option CmdFn := fun s =>
  if s = "good" then some goodFn else if s = "bad" then some badFn else none

/-- A writer that never fails (a `bytes.Buffer`). -/
def noFail : String → Option Err := fun _ => none

/-- `cmd.New(commands, nil, out)` over a never-failing writer. -/
def tCmd : Cmd := New testCommands noFail

/-! ### The claims -/

/-- C1: for any command name `n` registered with handler `h`, and any line
whose whitespace-separated words are `n` followed by the argument words
`args`, `Cmd.one` with the default tokenizer invokes `h` exactly once with
exactly the argument list `args` in order (the trace contains a single
handler-call event), writes exactly `h`'s returned output string to the
output stream (a single write of that string, and no write at all when it is
empty), and returns `h`'s error value. -/
theorem C1_dispatch_exact (fuel : Nat) (c : Cmd) (n line : String) (args : List String)
    (h : CmdFn) (htok : c.Tokens = .std) (hw : ∀ s, c.OutFail s = none)
    (hc : c.Commands n = some h) (hf : fields line = n :: args) :
    (Cmd.one (fuel + 1) c line).trace =
      .callHandler n args :: (if (h args).1 = "" then [] else [.write (h args).1]) ∧
    (Cmd.one (fuel + 1) c line).outcome = .ok (h args).2 := by
  have hp := parseLine_std c line n args htok hf
  have hn : n ≠ "" := fields_head_ne_empty line n args hf
  rw [one_handler fuel c line n args h hp hn hc]
  by_cases hm : (h args).1 = ""
  · rw [hm, emit_empty]
    simp
  · rw [emit_write_ok { c with LastLine := line } _ _ _ hm (hw _)]
    simp [hm]

/-- C1 witness: the table of `cmd_test.go` on the line `"good a b c"`. -/
theorem C1_dispatch_exact_witness :
    tCmd.Tokens = .std ∧ (∀ s, tCmd.OutFail s = none) ∧
    tCmd.Commands "good" = some goodFn ∧
    fields "good a b c" = "good" :: ["a", "b", "c"] ∧
    ((Cmd.one 1 tCmd "good a b c").trace =
      .callHandler "good" ["a", "b", "c"] ::
        (if (goodFn ["a", "b", "c"]).1 = "" then [] else [.write (goodFn ["a", "b", "c"]).1]) ∧
     (Cmd.one 1 tCmd "good a b c").outcome = .ok (goodFn ["a", "b", "c"]).2) :=
  ⟨rfl, fun _ => rfl, rfl, by decide,
    C1_dispatch_exact 0 tCmd "good" "good a b c" ["a", "b", "c"] goodFn rfl
      (fun _ => rfl) rfl (by decide)⟩

/-- C4: for any line whose first whitespace-separated word `n` is not a key of
the command table, `Cmd.one` with the default `Default` handler writes the
single message `"unrecognized command: " ++ n ++ "\n"` (which contains `n`)
and returns a nil error. -/
theorem C4_unrecognized (fuel : Nat) (c : Cmd) (n line : String) (args : List String)
    (htok : c.Tokens = .std) (hdef : c.Default = .std) (hw : ∀ s, c.OutFail s = none)
    (hc : c.Commands n = none) (hf : fields line = n :: args) :
    (Cmd.one (fuel + 1) c line).trace =
      [.callDefault line, .write ("unrecognized command: " ++ n ++ "\n")] ∧
    (Cmd.one (fuel + 1) c line).outcome = .ok none := by
  have hp := parseLine_std c line n args htok hf
  have hn : n ≠ "" := fields_head_ne_empty line n args hf
  have hmsg : ("unrecognized command: " ++ n ++ "\n") ≠ "" := by
    intro hh
    have hdata : ("unrecognized command: " ++ n ++ "\n").data = [] := congrArg String.data hh
    rw [String.data_append, String.data_append] at hdata
    simp at hdata
  rw [one_default_std fuel c line n args n args hp hn hc hdef hf,
    emit_write_ok { c with LastLine := line } _ _ _ hmsg (hw _)]
  exact ⟨rfl, rfl⟩

/-- C4 witness: the table of `cmd_test.go` on the line `"hello "`. -/
theorem C4_unrecognized_witness :
    tCmd.Tokens = .std ∧ tCmd.Default = .std ∧ (∀ s, tCmd.OutFail s = none) ∧
    tCmd.Commands "hello" = none ∧ fields "hello " = "hello" :: [] ∧
    ((Cmd.one 1 tCmd "hello ").trace =
      [.callDefault "hello ", .write ("unrecognized command: " ++ "hello" ++ "\n")] ∧
     (Cmd.one 1 tCmd "hello ").outcome = .ok none) :=
  ⟨rfl, rfl, fun _ => rfl, rfl, by decide,
    C4_unrecognized 0 tCmd "hello" "hello " [] rfl rfl (fun _ => rfl) rfl (by decide)⟩

/-- C5: any line with at least one whitespace-separated token causes `Cmd.one`
(default tokenizer) to assign the exact raw line — untrimmed, with its
original whitespace and terminator — to `LastLine`, whatever the command
table, `Default` handler and handler results are: the final state is exactly
the input state with `LastLine := line`, also when the name is unregistered
and dispatch goes to `Default`, and also when the invoked handler returns an
error. -/
theorem C5_lastline_raw (fuel : Nat) (c : Cmd) (line : String)
    (htok : c.Tokens = .std) (hne : fields line ≠ []) :
    (Cmd.one (fuel + 1) c line).state = { c with LastLine := line } := by
  obtain ⟨n, args, hfl⟩ : ∃ n args, fields line = n :: args := by
    cases hq : fields line with
    | nil => exact absurd hq hne
    | cons a b => exact ⟨a, b, rfl⟩
  have hp := parseLine_std c line n args htok hfl
  have hn : n ≠ "" := fields_head_ne_empty line n args hfl
  exact one_state_cmd_ne fuel c line (by rw [hp]; exact hn)

/-- C5 witness: an unregistered command with leading/trailing whitespace and a
line terminator; the raw line is stored verbatim. -/
theorem C5_lastline_raw_witness :
    tCmd.Tokens = .std ∧ fields "  zap  x \n" ≠ [] ∧
    (Cmd.one 1 tCmd "  zap  x \n").state = { tCmd with LastLine := "  zap  x \n" } :=
  ⟨rfl, by decide, C5_lastline_raw 0 tCmd "  zap  x \n" rfl (by decide)⟩

/-- The `Cmd` of the C2 counterexample: a fresh interpreter whose `Tokens`
field holds a degenerate custom tokenizer producing `["", "x"]` on every
line. -/
def C2cex : Cmd :=
  { New (fun _ => none) noFail with Tokens := .custom (fun _ => ["", "x"]) }

/-- C2 counterexample: processing the line `"x"` on a fresh interpreter with
the degenerate tokenizer produces the token list `["", "x"]` — at least one
token — yet `one` treats the line as an empty-line event because the first
token is empty, and `LastLine` stays `""` instead of becoming the most
recently processed token-producing line `"x"`. -/
theorem C2_cex_lastline_not_updated :
    tokensOf C2cex (trimSpace "x") = ["", "x"] ∧
    (Cmd.one 5 C2cex "x").state.LastLine = "" ∧
    (Cmd.one 5 C2cex "x").state.LastLine ≠ "x" := by
  refine ⟨rfl, rfl, ?_⟩
  decide

/-- C2 (amended): after each call to `Cmd.one`, `LastLine` equals the most
recently processed line that parsed to a non-empty command name (its first
token non-empty; with the default tokenizer, any line with at least one
token). A line that parses to the empty command name — zero tokens, or a
custom tokenization whose first token is empty — is an empty-line event and
leaves the value of `LastLine` unchanged (the default empty-line repeat only
rewrites it with its own value). Stated per call: a non-empty command sets
`LastLine` to the line; an empty-line event preserves `LastLine`. -/
theorem C2_lastline_invariant (fuel : Nat) (c : Cmd) (line : String) :
    ((c.parseLine line).1 ≠ "" →
      (Cmd.one (fuel + 1) c line).state = { c with LastLine := line }) ∧
    ((c.parseLine line).1 = "" →
      (Cmd.one fuel c line).state.LastLine = c.LastLine) :=
  ⟨fun hp => one_state_cmd_ne fuel c line hp,
   fun hp => one_state_empty fuel c line hp⟩

/-- C2 witness: both parts of the amended invariant at concrete inputs — the
command line `"good x"` updates `LastLine`, the blank line `"  "` leaves it
untouched. -/
theorem C2_lastline_invariant_witness :
    ((tCmd.parseLine "good x").1 ≠ "" ∧
      (Cmd.one 2 tCmd "good x").state = { tCmd with LastLine := "good x" }) ∧
    ((tCmd.parseLine "  ").1 = "" ∧
      (Cmd.one 1 tCmd "  ").state.LastLine = tCmd.LastLine) :=
  ⟨⟨by decide, (C2_lastline_invariant 1 tCmd "good x").1 (by decide)⟩,
   ⟨by decide, (C2_lastline_invariant 1 tCmd "  ").2 (by decide)⟩⟩

/-- C3: a registered handler returning a non-empty output string together
with a non-nil error: `Cmd.one` first writes the output string (the write
event precedes the return) and then returns that error; `Cmd.loop` on an
input stream starting with such a line terminates with that error after a
single prompt — the remaining input is not consumed and no further prompt is
written. -/
theorem C3_fatal_handler_error (fuel : Nat) (c : Cmd) (n line : String) (args : List String)
    (h : CmdFn) (e : Err) (rest : List String)
    (htok : c.Tokens = .std) (hw : ∀ s, c.OutFail s = none)
    (hc : c.Commands n = some h) (hf : fields line = n :: args)
    (hout : (h args).1 ≠ "") (herr : (h args).2 = some e) :
    (Cmd.one (fuel + 1) c line).trace = [.callHandler n args, .write (h args).1] ∧
    (Cmd.one (fuel + 1) c line).outcome = .ok (some e) ∧
    Cmd.loop (fuel + 2) c (line :: rest) =
      ⟨.ok (some e), { c with LastLine := line },
        [.write c.Prompt, .callHandler n args, .write (h args).1]⟩ := by
  have hp := parseLine_std c line n args htok hf
  have hn : n ≠ "" := fields_head_ne_empty line n args hf
  have hone : Cmd.one (fuel + 1) c line =
      ⟨.ok (some e), { c with LastLine := line },
        [.callHandler n args, .write (h args).1]⟩ := by
    rw [one_handler fuel c line n args h hp hn hc,
      emit_write_ok { c with LastLine := line } _ _ _ hout (hw _), herr]
    rfl
  refine ⟨by rw [hone], by rw [hone], ?_⟩
  show Cmd.loop (fuel + 1 + 1) c (line :: rest) = _
  simp only [Cmd.loop, hw c.Prompt, hone]

/-- C3 witness: the table of `cmd_test.go` on the line `"bad"`: output
`"bad\n"` is written, the error `"oops"` is returned, and the loop stops. -/
theorem C3_fatal_handler_error_witness :
    tCmd.Tokens = .std ∧ (∀ s, tCmd.OutFail s = none) ∧
    tCmd.Commands "bad" = some badFn ∧ fields "bad" = "bad" :: [] ∧
    (badFn []).1 ≠ "" ∧ (badFn []).2 = some "oops" ∧
    ((Cmd.one 1 tCmd "bad").trace = [.callHandler "bad" [], .write (badFn []).1] ∧
     (Cmd.one 1 tCmd "bad").outcome = .ok (some "oops") ∧
     Cmd.loop 2 tCmd ["bad", "good"] =
      ⟨.ok (some "oops"), { tCmd with LastLine := "bad" },
        [.write tCmd.Prompt, .callHandler "bad" [], .write (badFn []).1]⟩) :=
  ⟨rfl, fun _ => rfl, rfl, by decide, by decide, rfl,
    C3_fatal_handler_error 0 tCmd "bad" "bad" [] badFn "oops" ["good"] rfl
      (fun _ => rfl) rfl (by decide) (by decide) rfl⟩

/-- C6: with the default `EmptyLine` behavior and a (pure) registered handler
for `"good"`, running `Cmd.one` on `"good x"` and then on the all-whitespace
line `"  "` makes the second call write exactly the same output strings as
the first and return the same error value, and leaves `LastLine` equal to
`"good x"` — re-processing the stored line is idempotent for `LastLine`. -/
theorem C6_repeat_semantics (c : Cmd) (h : CmdFn)
    (htok : c.Tokens = .std) (hel : c.EmptyLine = .std) (hc : c.Commands "good" = some h) :
    writes (Cmd.one 2 (Cmd.one 2 c "good x").state "  ").trace =
      writes (Cmd.one 2 c "good x").trace ∧
    (Cmd.one 2 (Cmd.one 2 c "good x").state "  ").outcome =
      (Cmd.one 2 c "good x").outcome ∧
    (Cmd.one 2 (Cmd.one 2 c "good x").state "  ").state.LastLine = "good x" := by
  have hfl : fields "good x" = ["good", "x"] := by decide
  have hp := parseLine_std c "good x" "good" ["x"] htok hfl
  have hn : ("good" : String) ≠ "" := by decide
  have h1 : Cmd.one 2 c "good x" =
      emit { c with LastLine := "good x" } [.callHandler "good" ["x"]]
        (h ["x"]).1 (h ["x"]).2 :=
    one_handler 1 c "good x" "good" ["x"] h hp hn hc
  have hstate1 : (Cmd.one 2 c "good x").state = { c with LastLine := "good x" } := by
    rw [h1, emit_state]
  have htok1 : ({ c with LastLine := "good x" } : Cmd).Tokens = .std := htok
  have hc1 : ({ c with LastLine := "good x" } : Cmd).Commands "good" = some h := hc
  have hel1 : ({ c with LastLine := "good x" } : Cmd).EmptyLine = .std := hel
  have hp1 := parseLine_std { c with LastLine := "good x" } "good x" "good" ["x"] htok1 hfl
  have hinner : Cmd.one 1 { c with LastLine := "good x" } "good x" =
      emit { c with LastLine := "good x" } [.callHandler "good" ["x"]]
        (h ["x"]).1 (h ["x"]).2 :=
    one_handler 0 { c with LastLine := "good x" } "good x" "good" ["x"] h hp1 hn hc1
  have hptwo : ({ c with LastLine := "good x" } : Cmd).parseLine "  " = ("", []) :=
    parseLine_of_trim_empty _ "  " (by decide)
  have hl1 : ({ c with LastLine := "good x" } : Cmd).LastLine ≠ "" := by
    show ("good x" : String) ≠ ""
    decide
  have h2 : Cmd.one 2 { c with LastLine := "good x" } "  " =
      ⟨(Cmd.one 1 { c with LastLine := "good x" } "good x").outcome,
       (Cmd.one 1 { c with LastLine := "good x" } "good x").state,
       .callEmptyLine :: (Cmd.one 1 { c with LastLine := "good x" } "good x").trace⟩ :=
    one_empty_std_last 1 { c with LastLine := "good x" } "  " (by rw [hptwo]) hel1 hl1
  rw [hstate1, h2, hinner, h1]
  refine ⟨?_, rfl, ?_⟩
  · simp [writes]
  · rw [emit_state]

/-- C6 witness: the table of `cmd_test.go`: `"good x"` then the blank line
`"  "` — the blank line reproduces the output and error of `"good x"` and
`LastLine` stays `"good x"`. -/
theorem C6_repeat_semantics_witness :
    tCmd.Tokens = .std ∧ tCmd.EmptyLine = .std ∧ tCmd.Commands "good" = some goodFn ∧
    (writes (Cmd.one 2 (Cmd.one 2 tCmd "good x").state "  ").trace =
      writes (Cmd.one 2 tCmd "good x").trace ∧
     (Cmd.one 2 (Cmd.one 2 tCmd "good x").state "  ").outcome =
      (Cmd.one 2 tCmd "good x").outcome ∧
     (Cmd.one 2 (Cmd.one 2 tCmd "good x").state "  ").state.LastLine = "good x") :=
  ⟨rfl, rfl, rfl, C6_repeat_semantics tCmd goodFn rfl rfl rfl⟩

/-- C7: when the selected callback — registered handler, `Default` handler
(both the standard one installed by `New` and a custom one), or `EmptyLine`
handler — returns a non-empty output string and the write of that string to
the output stream fails, `Cmd.one` returns the write error to the caller:
the caller receives the writer's error value, not the callback's error
value, whatever the latter was. The empty-line case covers every empty-line
event, including those induced by a custom tokenizer on a non-blank line. -/
theorem C7_write_error :
    (∀ (c : Cmd) (n : String) (h : CmdFn) (args : List String) (line : String) (we : Err),
      c.Tokens = .std → c.Commands n = some h → fields line = n :: args →
      (h args).1 ≠ "" → c.OutFail (h args).1 = some we →
      ∀ fuel, (Cmd.one (fuel + 1) c line).outcome = .ok (some we)) ∧
    (∀ (c : Cmd) (n : String) (args : List String) (line : String) (we : Err),
      c.Tokens = .std → c.Commands n = none → c.Default = .std →
      fields line = n :: args →
      c.OutFail ("unrecognized command: " ++ n ++ "\n") = some we →
      ∀ fuel, (Cmd.one (fuel + 1) c line).outcome = .ok (some we)) ∧
    (∀ (c : Cmd) (f : String → String × Option Err) (n : String) (args : List String)
        (line : String) (we : Err),
      c.Tokens = .std → c.Commands n = none → c.Default = .custom f →
      fields line = n :: args → (f line).1 ≠ "" → c.OutFail (f line).1 = some we →
      ∀ fuel, (Cmd.one (fuel + 1) c line).outcome = .ok (some we)) ∧
    (∀ (c : Cmd) (m : String) (e : Option Err) (we : Err) (line : String),
      c.EmptyLine = .custom (m, e) → (c.parseLine line).1 = "" → m ≠ "" →
      c.OutFail m = some we →
      ∀ fuel, (Cmd.one (fuel + 1) c line).outcome = .ok (some we)) := by
  refine ⟨?_, ?_, ?_, ?_⟩
  · intro c n h args line we htok hc hf hout hwf fuel
    have hp := parseLine_std c line n args htok hf
    have hn : n ≠ "" := fields_head_ne_empty line n args hf
    rw [one_handler fuel c line n args h hp hn hc,
      emit_write_fail { c with LastLine := line } _ _ _ we hout hwf]
  · intro c n args line we htok hc hd hf hwf fuel
    have hp := parseLine_std c line n args htok hf
    have hn : n ≠ "" := fields_head_ne_empty line n args hf
    have hmsg : ("unrecognized command: " ++ n ++ "\n") ≠ "" := by
      intro hh
      have hdata : ("unrecognized command: " ++ n ++ "\n").data = [] :=
        congrArg String.data hh
      rw [String.data_append, String.data_append] at hdata
      simp at hdata
    rw [one_default_std fuel c line n args n args hp hn hc hd hf,
      emit_write_fail { c with LastLine := line } _ _ _ we hmsg hwf]
  · intro c f n args line we htok hc hd hf hout hwf fuel
    have hp := parseLine_std c line n args htok hf
    have hn : n ≠ "" := fields_head_ne_empty line n args hf
    rw [one_default_custom fuel c line n args f hp hn hc hd,
      emit_write_fail { c with LastLine := line } _ _ _ we hout hwf]
  · intro c m e we line he hp hm hwf fuel
    rw [one_empty_custom fuel c line (m, e) hp he, emit_write_fail c _ _ _ we hm hwf]

/-- A writer that fails every write with the error `"wfail"`. -/
def failWriter : String → Option Err := fun _ => some "wfail"

/-- The test table over the failing writer. -/
def fCmd : Cmd := New testCommands failWriter

/-- `fCmd` with a custom `Default` handler returning non-empty output and its
own error. -/
def fCmdD : Cmd := { fCmd with Default := .custom (fun _ => ("d\n", some "derr")) }

/-- `fCmd` with a custom `EmptyLine` handler returning non-empty output and
its own error. -/
def fCmdE : Cmd := { fCmd with EmptyLine := .custom ("e\n", some "eerr") }

/-- `fCmdE` with a degenerate tokenizer mapping every line to `["", "x"]`: a
non-blank line becomes an empty-line event that reaches the custom
`EmptyLine` handler. -/
def fCmdT : Cmd := { fCmdE with Tokens := .custom (fun _ => ["", "x"]) }

/-- C7 witness: all four callback kinds over the always-failing writer — a
registered handler, the standard `Default` installed by `New`, a custom
`Default`, and a custom `EmptyLine` reached through a tokenizer-induced
empty-line event on the non-blank line `"x"`. In each case the caller
receives the write error `"wfail"`, not the callback's own error. -/
theorem C7_write_error_witness :
    (fCmd.Tokens = .std ∧ fCmd.Commands "bad" = some badFn ∧
      fields "bad" = "bad" :: [] ∧ (badFn []).1 ≠ "" ∧
      fCmd.OutFail (badFn []).1 = some "wfail" ∧
      (Cmd.one 1 fCmd "bad").outcome = .ok (some "wfail")) ∧
    (fCmd.Tokens = .std ∧ fCmd.Commands "zap" = none ∧ fCmd.Default = .std ∧
      fields "zap" = "zap" :: [] ∧
      fCmd.OutFail ("unrecognized command: " ++ "zap" ++ "\n") = some "wfail" ∧
      (Cmd.one 1 fCmd "zap").outcome = .ok (some "wfail")) ∧
    (fCmdD.Tokens = .std ∧ fCmdD.Commands "zap" = none ∧
      fCmdD.Default = .custom (fun _ => ("d\n", some "derr")) ∧
      fields "zap" = "zap" :: [] ∧ (("d\n" : String), some "derr").1 ≠ "" ∧
      fCmdD.OutFail "d\n" = some "wfail" ∧
      (Cmd.one 1 fCmdD "zap").outcome = .ok (some "wfail")) ∧
    (fCmdT.EmptyLine = .custom ("e\n", some "eerr") ∧
      (fCmdT.parseLine "x").1 = "" ∧ ("e\n" : String) ≠ "" ∧
      fCmdT.OutFail "e\n" = some "wfail" ∧
      (Cmd.one 1 fCmdT "x").outcome = .ok (some "wfail")) :=
  ⟨⟨rfl, rfl, by decide, by decide, rfl,
    C7_write_error.1 fCmd "bad" badFn [] "bad" "wfail" rfl rfl (by decide) (by decide) rfl 0⟩,
   ⟨rfl, rfl, rfl, by decide, rfl,
    C7_write_error.2.1 fCmd "zap" [] "zap" "wfail" rfl rfl rfl (by decide) rfl 0⟩,
   ⟨rfl, rfl, rfl, by decide, by decide, rfl,
    C7_write_error.2.2.1 fCmdD (fun _ => ("d\n", some "derr")) "zap" [] "zap" "wfail"
      rfl rfl rfl (by decide) (by decide) rfl 0⟩,
   ⟨rfl, by decide, by decide, rfl,
    C7_write_error.2.2.2 fCmdT "e\n" (some "eerr") "wfail" "x" rfl (by decide)
      (by decide) rfl 0⟩⟩

/-- C9: a custom tokenizer whose token list for some non-blank line starts
with the empty string (e.g. `["", "x"]`): `Cmd.one` treats the line as an
empty-line event — it invokes `EmptyLine`, does not consult the command
table, does not invoke `Default`, and does not update `LastLine` — even
though tokenization produced tokens. With a custom `EmptyLine` the whole
trace is the empty-line call followed by at most its own write. -/
theorem C9_empty_first_token (fuel : Nat) (c : Cmd) (f : String → List String)
    (line : String) (rest : List String)
    (htok : c.Tokens = .custom f) (hne : trimSpace line ≠ "")
    (hf : f (trimSpace line) = "" :: rest) :
    c.parseLine line = ("", rest) ∧
    (Cmd.one (fuel + 1) c line).state.LastLine = c.LastLine ∧
    ((Cmd.one (fuel + 1) c line).trace).head? = some .callEmptyLine ∧
    (∀ r : String × Option Err, c.EmptyLine = .custom r →
      (Cmd.one (fuel + 1) c line).trace =
        .callEmptyLine :: (if r.1 = "" then [] else [.write r.1])) := by
  have hlen : ¬(trimSpace line).length = 0 :=
    fun hz => hne ((string_length_zero_iff _).mp hz)
  have htoks : tokensOf c (trimSpace line) = "" :: rest := by
    unfold tokensOf
    rw [htok]
    exact hf
  have hp : c.parseLine line = ("", rest) := by
    unfold Cmd.parseLine
    simp only [hlen, if_false, htoks]
  have hp1 : (c.parseLine line).1 = "" := by rw [hp]
  refine ⟨hp, one_state_empty (fuel + 1) c line hp1, ?_, ?_⟩
  · cases he : c.EmptyLine with
    | custom r =>
      rw [one_empty_custom fuel c line r hp1 he]
      exact emit_trace_cons c _ _ _ _
    | std =>
      by_cases hl : c.LastLine = ""
      · rw [one_empty_std_nolast fuel c line hp1 he hl]
        rfl
      · rw [one_empty_std_last fuel c line hp1 he hl]
        rfl
  · intro r he
    rw [one_empty_custom fuel c line r hp1 he]
    by_cases hm : r.1 = ""
    · rw [hm, emit_empty]
      simp
    · cases hwf : c.OutFail r.1 with
      | none => rw [emit_write_ok c _ _ _ hm hwf]; simp [hm]
      | some we => rw [emit_write_fail c _ _ _ we hm hwf]; simp [hm]

/-- A `Cmd` with a degenerate tokenizer that maps every line to `["", "x"]`
and a custom, observable `EmptyLine` handler. -/
def C9cmd : Cmd :=
  { New (fun _ => none) noFail with
      Tokens := .custom (fun _ => ["", "x"]), EmptyLine := .custom ("el\n", none) }

/-- C9 witness: the degenerate tokenizer on the non-blank line `"x"`. -/
theorem C9_empty_first_token_witness :
    C9cmd.Tokens = .custom (fun _ => ["", "x"]) ∧ trimSpace "x" ≠ "" ∧
    (fun _ : String => ["", "x"]) (trimSpace "x") = "" :: ["x"] ∧
    (C9cmd.parseLine "x" = ("", ["x"]) ∧
     (Cmd.one 1 C9cmd "x").state.LastLine = C9cmd.LastLine ∧
     ((Cmd.one 1 C9cmd "x").trace).head? = some .callEmptyLine ∧
     (∀ r : String × Option Err, C9cmd.EmptyLine = .custom r →
       (Cmd.one 1 C9cmd "x").trace =
         .callEmptyLine :: (if r.1 = "" then [] else [.write r.1]))) :=
  ⟨rfl, by decide, by decide,
    C9_empty_first_token 0 C9cmd (fun _ => ["", "x"]) "x" ["x"] rfl (by decide) (by decide)⟩

theorem one_ne_panic (fuel : Nat) : ∀ (c : Cmd) (line : String),
    (Cmd.one fuel c line).outcome ≠ .panic := by
  induction fuel with
  | zero => intro c line h; exact Outcome.noConfusion h
  | succ fuel ih =>
    intro c line
    by_cases hp : (c.parseLine line).1 = ""
    · cases he : c.EmptyLine with
      | custom r =>
        rw [one_empty_custom fuel c line r hp he]
        exact emit_outcome_ne_panic _ _ _ _
      | std =>
        by_cases hl : c.LastLine = ""
        · rw [one_empty_std_nolast fuel c line hp he hl]
          exact fun h => Outcome.noConfusion h
        · rw [one_empty_std_last fuel c line hp he hl]
          exact ih c c.LastLine
    · obtain ⟨n, args, hpe⟩ : ∃ n args, c.parseLine line = (n, args) := ⟨_, _, rfl⟩
      have hn : n ≠ "" := by rw [hpe] at hp; exact hp
      have hflne : fields line ≠ [] :=
        fields_ne_nil_of_trim_ne line (trim_ne_of_parseLine_ne c line hp)
      cases hc : c.Commands n with
      | some fn =>
        rw [one_handler fuel c line n args fn hpe hn hc]
        exact emit_outcome_ne_panic _ _ _ _
      | none =>
        cases hd : c.Default with
        | custom f =>
          rw [one_default_custom fuel c line n args f hpe hn hc hd]
          exact emit_outcome_ne_panic _ _ _ _
        | std =>
          cases hfl : fields line with
          | nil => exact absurd hfl hflne
          | cons tok rest =>
            rw [one_default_std fuel c line n args tok rest hpe hn hc hd hfl]
            exact emit_outcome_ne_panic _ _ _ _

/-- C10: the standard `Default` handler's unguarded index
`strings.Fields(line)[0]` is safe when reached through `Cmd.one`: a line that
parsed to a non-empty command name necessarily has non-empty `fields` (the
trimmed line is non-empty), so the index is in bounds, and consequently no
run of `Cmd.one` with the default `Default` handler ever reaches the panic
outcome. -/
theorem C10_default_index_safe :
    (∀ (c : Cmd) (line : String), (c.parseLine line).1 ≠ "" → fields line ≠ []) ∧
    (∀ (fuel : Nat) (c : Cmd) (line : String), c.Default = .std →
      (Cmd.one fuel c line).outcome ≠ .panic) :=
  ⟨fun c line hp => fields_ne_nil_of_trim_ne line (trim_ne_of_parseLine_ne c line hp),
   fun fuel c line _ => one_ne_panic fuel c line⟩

/-- C10 witness: both parts at concrete inputs. -/
theorem C10_default_index_safe_witness :
    ((tCmd.parseLine "good x").1 ≠ "" ∧ fields "good x" ≠ []) ∧
    (tCmd.Default = .std ∧ (Cmd.one 3 tCmd "zap").outcome ≠ .panic) :=
  ⟨⟨by decide, C10_default_index_safe.1 tCmd "good x" (by decide)⟩,
   ⟨rfl, C10_default_index_safe.2 3 tCmd "zap" rfl⟩⟩

/-- Spec-side model of the loop ordering contract (scenario D): for each
iteration, in input order, the prompt string is written and then the events
of processing that line — its command output — follow immediately, prompt
and output in strict alternation. This continues up to and including the
first iteration whose processing returns a non-nil error; after that
iteration nothing further — in particular no further prompt — is emitted and
that error is returned. If the input ends with no such error a final prompt
is written and the EOF read error is returned. Per-line processing is
`Cmd.one` (one fuel step suffices for command lines). -/
def loopSpec : Cmd → List String → RunOut
  | c, [] => ⟨.ok (some "EOF"), c, [.write c.Prompt]⟩
  | c, line :: rest =>
    let r := Cmd.one 1 c line
    match r.outcome with
    | .ok none =>
      let r2 := loopSpec r.state rest
      ⟨r2.outcome, r2.state, .write c.Prompt :: (r.trace ++ r2.trace)⟩
    | o => ⟨o, r.state, .write c.Prompt :: r.trace⟩

/-- One write fails nowhere, the handler/default output is non-`panic`:
`one` on a line with a non-empty command name always returns through `emit`,
so its outcome is an `.ok` value. -/
theorem one_outcome_ok_of_cmd_ne (fuel : Nat) (c : Cmd) (line : String)
    (hp : (c.parseLine line).1 ≠ "") :
    ∃ er, (Cmd.one (fuel + 1) c line).outcome = .ok er := by
  have hok : ∀ (c' : Cmd) (pre : List Event) (m : String) (e : Option Err),
      ∃ er, (emit c' pre m e).outcome = .ok er := by
    intro c' pre m e
    unfold emit
    by_cases hm : m = ""
    · rw [if_pos hm]
      exact ⟨e, rfl⟩
    · rw [if_neg hm]
      cases hwf : c'.OutFail m with
      | none => exact ⟨e, rfl⟩
      | some we => exact ⟨some we, rfl⟩
  obtain ⟨n, args, hpe⟩ : ∃ n args, c.parseLine line = (n, args) := ⟨_, _, rfl⟩
  have hn : n ≠ "" := by rw [hpe] at hp; exact hp
  have hflne : fields line ≠ [] :=
    fields_ne_nil_of_trim_ne line (trim_ne_of_parseLine_ne c line hp)
  cases hc : c.Commands n with
  | some fn =>
    rw [one_handler fuel c line n args fn hpe hn hc]
    exact hok _ _ _ _
  | none =>
    cases hd : c.Default with
    | custom f =>
      rw [one_default_custom fuel c line n args f hpe hn hc hd]
      exact hok _ _ _ _
    | std =>
      cases hfl : fields line with
      | nil => exact absurd hfl hflne
      | cons tok rest =>
        rw [one_default_std fuel c line n args tok rest hpe hn hc hd hfl]
        exact hok _ _ _ _

theorem loop_nil (fuel : Nat) (c : Cmd) (hw : c.OutFail c.Prompt = none) :
    Cmd.loop (fuel + 1) c [] = ⟨.ok (some "EOF"), c, [.write c.Prompt]⟩ := by
  simp only [Cmd.loop, hw]

theorem loop_cons_ok (fuel : Nat) (c : Cmd) (line : String) (rest : List String)
    (hw : c.OutFail c.Prompt = none) (ho : (Cmd.one fuel c line).outcome = .ok none) :
    Cmd.loop (fuel + 1) c (line :: rest) =
      ⟨(Cmd.loop fuel (Cmd.one fuel c line).state rest).outcome,
       (Cmd.loop fuel (Cmd.one fuel c line).state rest).state,
       .write c.Prompt ::
         ((Cmd.one fuel c line).trace ++
           (Cmd.loop fuel (Cmd.one fuel c line).state rest).trace)⟩ := by
  simp only [Cmd.loop, hw, ho]

theorem loop_cons_err (fuel : Nat) (c : Cmd) (line : String) (rest : List String) (e : Err)
    (hw : c.OutFail c.Prompt = none) (ho : (Cmd.one fuel c line).outcome = .ok (some e)) :
    Cmd.loop (fuel + 1) c (line :: rest) =
      ⟨.ok (some e), (Cmd.one fuel c line).state,
        .write c.Prompt :: (Cmd.one fuel c line).trace⟩ := by
  simp only [Cmd.loop, hw, ho]

theorem loopSpec_cons_ok (c : Cmd) (line : String) (rest : List String)
    (ho : (Cmd.one 1 c line).outcome = .ok none) :
    loopSpec c (line :: rest) =
      ⟨(loopSpec (Cmd.one 1 c line).state rest).outcome,
       (loopSpec (Cmd.one 1 c line).state rest).state,
       .write c.Prompt ::
         ((Cmd.one 1 c line).trace ++ (loopSpec (Cmd.one 1 c line).state rest).trace)⟩ := by
  simp only [loopSpec, ho]

theorem loopSpec_cons_err (c : Cmd) (line : String) (rest : List String) (e : Err)
    (ho : (Cmd.one 1 c line).outcome = .ok (some e)) :
    loopSpec c (line :: rest) =
      ⟨.ok (some e), (Cmd.one 1 c line).state,
        .write c.Prompt :: (Cmd.one 1 c line).trace⟩ := by
  simp only [loopSpec, ho]

/-- C8: with the default tokenizer, a never-failing writer and an input
stream of command lines (each with at least one token), `Cmd.loop` produces
exactly the `loopSpec` behavior: per iteration the prompt immediately
followed by that line's command output, in strict alternation, up to and
including the iteration whose handler returns a non-nil error, after which
no further prompt is written and that error is returned. -/
theorem C8_loop_alternation (fuel : Nat) : ∀ (c : Cmd) (input : List String),
    c.Tokens = .std → (∀ s, c.OutFail s = none) → (∀ l ∈ input, fields l ≠ []) →
    input.length + 2 ≤ fuel → Cmd.loop fuel c input = loopSpec c input := by
  induction fuel with
  | zero =>
    intro c input _ _ _ hle
    omega
  | succ fuel ih =>
    intro c input htok hw hlines hle
    cases input with
    | nil =>
      rw [loop_nil fuel c (hw c.Prompt)]
      rfl
    | cons line rest =>
      obtain ⟨g, rfl⟩ : ∃ g, fuel = g + 1 := ⟨fuel - 1, by simp at hle; omega⟩
      have hline := hlines line (by simp)
      have hp1 : (c.parseLine line).1 ≠ "" := by
        obtain ⟨n, args, hfl⟩ : ∃ n args, fields line = n :: args := by
          cases hq : fields line with
          | nil => exact absurd hq hline
          | cons a b => exact ⟨a, b, rfl⟩
        rw [parseLine_std c line n args htok hfl]
        exact fields_head_ne_empty line n args hfl
      have hone : Cmd.one (g + 1) c line = Cmd.one 1 c line :=
        one_fuel_indep g 0 c line hp1
      obtain ⟨ll, hll⟩ := one_state_shape 1 c line
      have hrec : Cmd.loop (g + 1) (Cmd.one 1 c line).state rest =
          loopSpec (Cmd.one 1 c line).state rest := by
        apply ih
        · rw [hll]
          exact htok
        · intro s
          rw [hll]
          exact hw s
        · intro l hl
          exact hlines l (List.mem_cons_of_mem line hl)
        · simp only [List.length_cons] at hle
          omega
      obtain ⟨er, her⟩ := one_outcome_ok_of_cmd_ne 0 c line hp1
      have her1 : (Cmd.one 1 c line).outcome = .ok er := her
      cases er with
      | none =>
        rw [loop_cons_ok (g + 1) c line rest (hw c.Prompt) (by rw [hone]; exact her1),
          loopSpec_cons_ok c line rest her1, hone, hrec]
      | some e =>
        rw [loop_cons_err (g + 1) c line rest e (hw c.Prompt) (by rw [hone]; exact her1),
          loopSpec_cons_err c line rest e her1, hone]

/-- C8 witness: the test table on four lines, the third of which triggers the
error handler; the loop trace equals the spec trace. -/
theorem C8_loop_alternation_witness :
    tCmd.Tokens = .std ∧ (∀ s, tCmd.OutFail s = none) ∧
    (∀ l ∈ ["good a\n", "zap\n", "bad\n", "good b\n"], fields l ≠ []) ∧
    (["good a\n", "zap\n", "bad\n", "good b\n"] : List String).length + 2 ≤ 6 ∧
    Cmd.loop 6 tCmd ["good a\n", "zap\n", "bad\n", "good b\n"] =
      loopSpec tCmd ["good a\n", "zap\n", "bad\n", "good b\n"] :=
  ⟨rfl, fun _ => rfl, by decide, by decide,
    C8_loop_alternation 6 tCmd ["good a\n", "zap\n", "bad\n", "good b\n"] rfl
      (fun _ => rfl) (by decide) (by decide)⟩
